
import Mathlib

/-!
Verification development for the equistore tensor-map data model, its
C-API boundary (`src/c_api/tensor.rs`), and the serialization round trip
exercised by `equistore/tests/serialization.rs`.

The repository excerpt contains the C-API veneer and the serialization
test; the core (`Labels`, `TensorBlock`, `TensorMap`, the reshape engine
and the container codec) is not part of the excerpt, so those parts are
modelled from the specification, as noted on each definition.
-/

set_option maxRecDepth 4000

/-- Labels: an ordered sequence of names of arity `n` paired with an ordered
sequence of integer entries of length `n`.  Modelled from the spec: the core
`Labels` type is not part of the source excerpt. -/
structure Labels where
  names : List String
  entries : List (List Int)
deriving DecidableEq

/-- Number of entries in a Labels. -/
def Labels.count (l : Labels) : Nat := l.entries.length

/-- Validity of a Labels, re-running the construction-time invariants:
non-empty distinct names, every entry of arity `names.length`, pairwise
distinct entries.  Modelled from the spec (section 3 and 4.1). -/
def Labels.valid (l : Labels) : Bool :=
  l.names.all (fun n => n ≠ "") &&
  decide l.names.Nodup &&
  l.entries.all (fun e => e.length = l.names.length) &&
  decide l.entries.Nodup

/-- The dense data of one block: samples, zero-or-more components, properties
and the array payload.  The payload is stored as nested rows indexed by
sample index, flattened component index, property index.  Modelled from the
spec: the core `TensorBlock` value type is not part of the source excerpt. -/
structure RawBlock where
  samples : Labels
  components : List Labels
  properties : Labels
  data : List (List (List Int))
deriving DecidableEq

/-- Product of the entry counts of a list of component Labels: the flattened
extent of the component axes. -/
def prodCounts (comps : List Labels) : Nat :=
  (comps.map (fun c => c.entries.length)).prod

/-- Cell lookup in a raw block at (sample index, flattened component index,
property index); out-of-shape indices read as the default value 0. -/
def cellD (b : RawBlock) (si ci pi : Nat) : Int :=
  (((b.data.getD si []).getD ci []).getD pi 0)

/-- A block: its values plus zero-or-more named gradient sub-blocks.
Modelled from the spec: the core `TensorBlock` type is not part of the
source excerpt. -/
structure Block where
  values : RawBlock
  gradients : List (String × RawBlock)
deriving DecidableEq

/-- A tensor map: keys Labels plus a positionally corresponding list of
blocks.  Modelled from the spec: the core `TensorMap` type is not part of
the source excerpt. -/
structure TensorMap where
  keys : Labels
  blocks : List Block
deriving DecidableEq

/-- Well-formedness of a raw block: valid axis Labels and an array whose
extent on each axis equals the count of the governing Labels. -/
def RawBlock.wf (b : RawBlock) : Bool :=
  b.samples.valid &&
  b.components.all Labels.valid &&
  b.properties.valid &&
  b.data.length = b.samples.entries.length &&
  b.data.all (fun m =>
    m.length = prodCounts b.components &&
    m.all (fun r => r.length = b.properties.entries.length))

/-- Equality of two Labels as full label sets (same names, same values, in
order); this is plain structural equality in the model. -/
def labelsEq (a b : Labels) : Bool := a = b

/-- Well-formedness of one gradient sub-block relative to its parent block:
well-formed as a block, leading sample variable named `sample` whose values
index the parent's sample rows, and properties identical to the parent's.
Modelled from the spec (section 3). -/
def gradWf (parent : RawBlock) (g : RawBlock) : Bool :=
  g.wf &&
  g.samples.names.head? = some "sample" &&
  g.samples.entries.all (fun e =>
    match e.head? with
    | some v => decide (0 ≤ v) && decide (v < (parent.samples.entries.length : Int))
    | none => false) &&
  labelsEq g.properties parent.properties

/-- Well-formedness of a block with its gradients. -/
def Block.wf (b : Block) : Bool :=
  b.values.wf &&
  b.gradients.all (fun g => gradWf b.values g.2) &&
  decide (b.gradients.map (fun g => g.1)).Nodup

/-- Well-formedness of a tensor map: valid keys, one block per key entry,
all blocks well-formed. -/
def TensorMap.wf (t : TensorMap) : Bool :=
  t.keys.valid &&
  t.keys.entries.length = t.blocks.length &&
  t.blocks.all Block.wf

/-- Error taxonomy of the core, from the spec (section 7). -/
inductive Err where
  | invalidParameter (msg : String)
  | outOfBounds (msg : String)
  | corruptedData (msg : String)
  | internalError (msg : String)
deriving DecidableEq

/-- Status returned by every foreign-boundary function: success or a failure
carrying an error. -/
inductive Status where
  | success
  | failed (e : Err)
deriving DecidableEq

/-- The message attached to an error. -/
def Err.msg : Err → String
  | .invalidParameter m => m
  | .outOfBounds m => m
  | .corruptedData m => m
  | .internalError m => m

/-- Whether an error is the index-out-of-bounds kind. -/
def Err.isOutOfBounds : Err → Bool
  | .outOfBounds _ => true
  | _ => false

/-- Whether an error is the invalid-parameter kind. -/
def Err.isInvalidParameter : Err → Bool
  | .invalidParameter _ => true
  | _ => false

/-- The retrievable last-error message of a status: `none` on success. -/
def Status.message : Status → Option String
  | .success => none
  | .failed e => some e.msg

/-- Whether a status reports an out-of-bounds failure. -/
def Status.isOutOfBounds : Status → Bool
  | .success => false
  | .failed e => e.isOutOfBounds

deriving instance DecidableEq for Except

/-- Outcome of an internal computation as seen by the foreign boundary:
normal result, normal error, or an unwinding fault (a panic).  Modelled from
the spec: the `catch_unwind` machinery of `src/c_api/status.rs` is not part
of the source excerpt. -/
inductive Outcome (α : Type) where
  | ok (a : α)
  | err (e : Err)
  | fault (msg : String)
deriving DecidableEq

/-- The fault barrier at the foreign boundary: a total function converting
any outcome, fault included, into a status — nothing unwinds past it.
Modelled from the spec (sections 6 and 9): faults become an internal-error
status with the fault message stored for retrieval. -/
def catchUnwind : Outcome Unit → Status
  | .ok _ => .success
  | .err e => .failed e
  | .fault msg => .failed (.internalError msg)

/-- Lexicographic comparison of two integer tuples, first position major. -/
def lexLe : List Int → List Int → Bool
  | [], _ => true
  | _ :: _, [] => false
  | a :: as, b :: bs => if a < b then true else if a = b then lexLe as bs else false

/-- The lexicographic order on integer tuples as a relation. -/
def LexLe (a b : List Int) : Prop := lexLe a b = true

instance : DecidableRel LexLe := fun a b => by
  unfold LexLe; infer_instance

/-- First-seen deduplication: keeps the first occurrence of every element,
dropping later duplicates.  `seen` accumulates the elements already kept. -/
def dedupFirstAux (seen : List (List Int)) : List (List Int) → List (List Int)
  | [] => []
  | x :: xs => if x ∈ seen then dedupFirstAux seen xs else x :: dedupFirstAux (x :: seen) xs

/-- The distinct elements of a list, in first-seen order. -/
def dedupFirst (l : List (List Int)) : List (List Int) := dedupFirstAux [] l

/-- The residual key: a key entry with the columns of the requested
variables removed.  Modelled from the spec (section 4.4 step 1). -/
def residKey (keyNames : List String) (vars : List String) (entry : List Int) : List Int :=
  ((keyNames.zip entry).filter (fun p => p.1 ∉ vars)).map (fun p => p.2)

/-- The values a key entry takes on the requested variables, in the order
the variables were requested.  Modelled from the spec (section 4.4). -/
def varValues (keyNames : List String) (vars : List String) (entry : List Int) : List Int :=
  vars.filterMap (fun v => ((keyNames.zip entry).find? (fun p => p.1 = v)).map (fun p => p.2))

/-- The distinct residual keys of a map for the requested variables, in
first-seen order.  Modelled from the spec (section 4.4 step 5). -/
def residualList (t : TensorMap) (vars : List String) : List (List Int) :=
  dedupFirst (t.keys.entries.map (residKey t.keys.names vars))

/-- The (key entry, block) pairs whose residual key equals `r`: the blocks
merged into one group.  Modelled from the spec (section 4.4 step 1). -/
def contribPairs (t : TensorMap) (vars : List String) (r : List Int) : List (List Int × Block) :=
  (t.keys.entries.zip t.blocks).filter (fun p => residKey t.keys.names vars p.1 = r)

/-- Exception-returning map over a list, failing at the first failure. -/
def mapExcept (f : α → Except Err β) : List α → Except Err (List β)
  | [] => .ok []
  | x :: xs =>
    match f x with
    | .error e => .error e
    | .ok y =>
      match mapExcept f xs with
      | .error e => .error e
      | .ok ys => .ok (y :: ys)

/-- The row segment a contributing block provides, in the merged block's
data row for sample `s` at flattened component index `ci`: the block's own
row when it has sample `s`, and the numeric zero value otherwise.  Modelled
from the spec (section 4.4 step 3). -/
def segmentP (b : RawBlock) (s : List Int) (ci : Nat) : List Int :=
  match b.samples.entries.indexOf? s with
  | some si => (List.range b.properties.entries.length).map (fun pi => cellD b si ci pi)
  | none => List.replicate b.properties.entries.length 0

/-- Merge one group of blocks for keys-to-properties.  The new property rows
are the old rows prefixed with each contributing block's values for the
requested variables; the merged samples are the distinct sample entries of
the group sorted lexicographically; missing cells are zero-filled.  Modelled
from the spec (section 4.4 steps 2-3; gradient sub-block merging, step 4, is
outside the modelled fragment so merged blocks carry no gradients). -/
def mergeGroupP (kn : List String) (vars : List String)
    (contrib : List (List Int × Block)) : Except Err Block :=
  match contrib with
  | [] => .error (.internalError "empty merge group")
  | p0 :: rest =>
    if (p0 :: rest).all (fun p =>
        p.2.values.samples.names = p0.2.values.samples.names &&
        p.2.values.components = p0.2.values.components &&
        p.2.values.properties.names = p0.2.values.properties.names) then
      if decide ((p0 :: rest).flatMap (fun p =>
          p.2.values.properties.entries.map
            (fun q => varValues kn vars p.1 ++ q))).Nodup then
        .ok ⟨⟨⟨p0.2.values.samples.names,
              List.insertionSort LexLe (dedupFirst ((p0 :: rest).flatMap
                (fun p => p.2.values.samples.entries)))⟩,
            p0.2.values.components,
            ⟨vars ++ p0.2.values.properties.names,
              (p0 :: rest).flatMap (fun p =>
                p.2.values.properties.entries.map
                  (fun q => varValues kn vars p.1 ++ q))⟩,
            (List.insertionSort LexLe (dedupFirst ((p0 :: rest).flatMap
                (fun p => p.2.values.samples.entries)))).map (fun s =>
              (List.range (prodCounts p0.2.values.components)).map (fun ci =>
                (p0 :: rest).flatMap (fun p => segmentP p.2.values s ci)))⟩, []⟩
      else .error (.invalidParameter "duplicate property rows when merging blocks")
    else .error (.invalidParameter "can not merge blocks with different axis labels")

/-- Request validation shared by the key-moving operations: every requested
variable is a key variable, requested once, and does not collide with a name
already present on the destination axis.  Modelled from the spec
(section 4.4, preamble). -/
def kpValid (t : TensorMap) (vars : List String) : Bool :=
  vars.all (fun v => v ∈ t.keys.names) &&
  decide vars.Nodup &&
  t.blocks.all (fun b => vars.all (fun v => v ∉ b.values.properties.names))

/-- Move the requested variables from the keys to the property labels,
merging blocks with equal residual keys.  Modelled from the spec
(section 4.4, keys to properties): the core `TensorMap::keys_to_properties`
is not part of the source excerpt. -/
def keysToProperties (t : TensorMap) (vars : List String) : Except Err TensorMap :=
  if kpValid t vars then
    match mapExcept (fun r => mergeGroupP t.keys.names vars (contribPairs t vars r))
        (residualList t vars) with
    | .error e => .error e
    | .ok blocks =>
      .ok ⟨⟨t.keys.names.filter (fun n => n ∉ vars), residualList t vars⟩, blocks⟩
  else .error (.invalidParameter "invalid variables for keys_to_properties")

/-- Request validation for keys-to-samples: every requested variable is a
key variable, requested once, and does not collide with a sample variable
name.  Modelled from the spec (section 4.4, preamble). -/
def ksValid (t : TensorMap) (vars : List String) : Bool :=
  vars.all (fun v => v ∈ t.keys.names) &&
  decide vars.Nodup &&
  t.blocks.all (fun b => vars.all (fun v => v ∉ b.values.samples.names))

/-- Merge one group of blocks for keys-to-samples.  Every block of the group
must have identical property Labels (same names, same values, same order);
the new sample entries are the old entries suffixed with each contributing
block's values for the requested variables, re-sorted lexicographically,
with the data rows permuted to match.  Modelled from the spec (section 4.4,
keys to samples; gradient sub-block merging is outside the modelled
fragment so merged blocks carry no gradients). -/
def mergeGroupS (keyNames : List String) (vars : List String)
    (contrib : List (List Int × Block)) : Except Err Block :=
  match contrib with
  | [] => .error (.internalError "empty merge group")
  | p0 :: _ =>
    let b0 := p0.2.values
    if contrib.all (fun p => labelsEq p.2.values.properties b0.properties) then
      if contrib.all (fun p =>
          p.2.values.samples.names = b0.samples.names &&
          p.2.values.components = b0.components) then
        let tagged := contrib.flatMap (fun p =>
          (List.range p.2.values.samples.entries.length).map (fun si =>
            ((p.2.values.samples.entries.getD si []) ++ varValues keyNames vars p.1,
              p.2.values, si)))
        let newS := List.insertionSort LexLe (tagged.map (fun q => q.1))
        let ce := prodCounts b0.components
        let np := b0.properties.entries.length
        let data := newS.map (fun s =>
          match tagged.find? (fun q => q.1 = s) with
          | some q => (List.range ce).map (fun ci =>
              (List.range np).map (fun pi => cellD q.2.1 q.2.2 ci pi))
          | none => (List.range ce).map (fun _ => List.replicate np 0))
        .ok ⟨⟨⟨b0.samples.names ++ vars, newS⟩, b0.components,
              b0.properties, data⟩, []⟩
      else .error (.invalidParameter "can not merge blocks with different axis labels")
    else .error (.invalidParameter "can not merge blocks with different property labels")

/-- Move the requested variables from the keys to the sample labels, merging
blocks with equal residual keys.  Modelled from the spec (section 4.4, keys
to samples): the core `TensorMap::keys_to_samples` is not part of the source
excerpt. -/
def keysToSamples (t : TensorMap) (vars : List String) : Except Err TensorMap :=
  if ksValid t vars then
    match mapExcept (fun r => mergeGroupS t.keys.names vars (contribPairs t vars r))
        (residualList t vars) with
    | .error e => .error e
    | .ok blocks =>
      .ok ⟨⟨t.keys.names.filter (fun n => n ∉ vars), residualList t vars⟩, blocks⟩
  else .error (.invalidParameter "invalid variables for keys_to_samples")

/-- Whether a component axis is selected by one of the requested variables
(its name list is exactly that single variable). -/
def isMovedAxis (vars : List String) (c : Labels) : Bool :=
  vars.any (fun v => c.names = [v])

/-- The component axes selected by the requested variables, in request
order. -/
def movedAxes (vars : List String) (comps : List Labels) : List Labels :=
  vars.filterMap (fun v => comps.find? (fun c => c.names = [v]))

/-- All combinations of entries of the given component axes, request-major,
each combination flattened into one integer tuple. -/
def cartesianVals : List Labels → List (List Int)
  | [] => [[]]
  | c :: cs => c.entries.flatMap (fun e => (cartesianVals cs).map (fun q => e ++ q))

/-- All multi-indices over the given extents, row-major. -/
def multiIndices : List Nat → List (List Nat)
  | [] => [[]]
  | e :: es => (List.range e).flatMap (fun i => (multiIndices es).map (fun q => i :: q))

/-- Flatten a multi-index over the given extents into one index. -/
def flattenIdx : List Nat → List Nat → Nat
  | [], _ => 0
  | _ :: _, [] => 0
  | _ :: es, i :: is => i * (es.prod) + flattenIdx es is

/-- Rebuild the multi-index over the original component axes from a chosen
combination of moved-axis values (given as an association from variable name
to value) and a multi-index over the remaining axes. -/
def origMulti (vars : List String) (assoc : List (String × Int)) :
    List Labels → List Nat → List Nat
  | [], _ => []
  | c :: cs, rem =>
    if isMovedAxis vars c then
      (match (assoc.find? (fun p => p.1 = c.names.getD 0 "")).map (fun p => p.2) with
        | some v => (c.entries.indexOf? [v]).getD 0
        | none => 0) :: origMulti vars assoc cs rem
    else rem.headD 0 :: origMulti vars assoc cs rem.tail

/-- Request validation for components-to-properties on one block: every
requested variable names exactly one component axis, is requested once, and
does not collide with a property name.  Modelled from the spec
(section 4.4, preamble; the modelled fragment covers single-variable
component axes, as in the source fixtures). -/
def cpValid (vars : List String) (b : Block) : Bool :=
  decide vars.Nodup &&
  vars.all (fun v => b.values.components.countP (fun c => c.names = [v]) = 1) &&
  vars.all (fun v => v ∉ b.values.properties.names)

/-- Move the selected component axes of one block into its properties: their
Labels become a prefix of the property Labels, one new property row per
(component combination, old property row), the data logically transposed to
match and the moved axes removed from the component list.  Modelled from the
spec (section 4.4, components to properties; gradient sub-blocks are outside
the modelled fragment). -/
def blockCToP (vars : List String) (b : Block) : Except Err Block :=
  if cpValid vars b then
    let comps := b.values.components
    let moved := movedAxes vars comps
    let remaining := comps.filter (fun c => !(isMovedAxis vars c))
    let combos := cartesianVals moved
    let np := b.values.properties.entries.length
    let newEntries := combos.flatMap (fun cmb =>
      b.values.properties.entries.map (fun q => cmb ++ q))
    let data := (List.range b.values.samples.entries.length).map (fun si =>
      (multiIndices (remaining.map (fun c => c.entries.length))).map (fun rm =>
        combos.flatMap (fun cmb =>
          (List.range np).map (fun pi =>
            cellD b.values si
              (flattenIdx (comps.map (fun c => c.entries.length))
                (origMulti vars (vars.zip cmb) comps rm)) pi))))
    .ok ⟨⟨b.values.samples, remaining,
          ⟨vars ++ b.values.properties.names, newEntries⟩, data⟩, []⟩
  else .error (.invalidParameter "invalid variables for components_to_properties")

/-- Move the selected component axes into the properties for each block of
the map independently.  Modelled from the spec (section 4.4): the core
`TensorMap::components_to_properties` is not part of the source excerpt. -/
def componentsToProperties (t : TensorMap) (vars : List String) : Except Err TensorMap :=
  match mapExcept (blockCToP vars) t.blocks with
  | .error e => .error e
  | .ok blocks => .ok ⟨t.keys, blocks⟩

/-- A C string argument at the foreign boundary: either valid UTF-8 with its
decoded contents, or an invalid byte sequence.  Decoding an invalid one
panics inside the boundary function (`CStr::to_str().expect("invalid utf8")`
in `src/c_api/tensor.rs`). -/
inductive CVar where
  | utf8 (s : String)
  | invalid
deriving DecidableEq

/-- Decode the variable-name strings passed at the boundary, panicking on
the first invalid UTF-8 argument, as the `expect` calls of
`src/c_api/tensor.rs` do. -/
def collectVars : List CVar → Outcome (List String)
  | [] => .ok []
  | .utf8 s :: rest =>
    match collectVars rest with
    | .ok ss => .ok (s :: ss)
    | .err e => .err e
    | .fault m => .fault m
  | .invalid :: _ => .fault "invalid utf8"

/-- Run an internal computation relying on the core reshape engine under the
fault barrier, committing the new map state only on success — mirroring the
`catch_unwind` wrappers of `src/c_api/tensor.rs`. -/
def runReshape (t : TensorMap) (vars : List CVar)
    (op : TensorMap → List String → Except Err TensorMap) : TensorMap × Status :=
  match collectVars vars with
  | .fault m => (t, catchUnwind (.fault m))
  | .err e => (t, catchUnwind (.err e))
  | .ok names =>
    match op t names with
    | .ok t2 => (t2, catchUnwind (.ok ()))
    | .error e => (t, catchUnwind (.err e))

/-- Boundary function `aml_tensormap_keys_to_properties` of
`src/c_api/tensor.rs`: decode the variable names (panicking on invalid
UTF-8), call the core operation, and convert the outcome to a status. -/
def aml_tensormap_keys_to_properties (t : TensorMap) (vars : List CVar) :
    TensorMap × Status :=
  runReshape t vars keysToProperties

/-- Boundary function `aml_tensormap_keys_to_samples` of
`src/c_api/tensor.rs`. -/
def aml_tensormap_keys_to_samples (t : TensorMap) (vars : List CVar) :
    TensorMap × Status :=
  runReshape t vars keysToSamples

/-- Boundary function `aml_tensormap_components_to_properties` of
`src/c_api/tensor.rs`. -/
def aml_tensormap_components_to_properties (t : TensorMap) (vars : List CVar) :
    TensorMap × Status :=
  runReshape t vars componentsToProperties

/-- Boundary function `aml_tensormap_block_by_id` of `src/c_api/tensor.rs`:
the body indexes the block slice directly (`blocks()[index]`), so an
out-of-range index raises a slice-index panic that the `catch_unwind`
barrier converts to a status. -/
def aml_tensormap_block_by_id (t : TensorMap) (index : Nat) :
    Option Block × Status :=
  if h : index < t.blocks.length then
    (some (t.blocks.get ⟨index, h⟩), catchUnwind (.ok ()))
  else
    (none, catchUnwind (.fault "index out of bounds"))

/-- Boundary function `aml_tensormap_free` of `src/c_api/tensor.rs`: frees
the map (a no-op on a null pointer) and always succeeds. -/
def aml_tensormap_free (t : Option TensorMap) : Status :=
  match t with
  | _ => catchUnwind (.ok ())

/-- Core map construction: fails with `InvalidParameter` when the number of
keys differs from the number of blocks.  Modelled from the spec
(section 4.3): `TensorMap::new` is not part of the source excerpt. -/
def TensorMap.new (keys : Labels) (blocks : List Block) : Except Err TensorMap :=
  if keys.entries.length = blocks.length then
    .ok ⟨keys, blocks⟩
  else .error (.invalidParameter "wrong number of blocks")

/-- Boundary function `aml_tensormap` of `src/c_api/tensor.rs`.  The block
handles are addresses into a heap; the function first converts the keys,
then rejects duplicate block pointers, then moves every block out of the
caller's array (overwriting each entry with null) before calling
`TensorMap::new`.  The returned triple is (constructed map if any, the
caller's block-pointer array after the call, status). -/
def aml_tensormap (keys : Labels) (heap : Nat → Block) (ptrs : List Nat) :
    Option TensorMap × List (Option Nat) × Status :=
  if keys.valid then
    if decide ptrs.Nodup then
      match TensorMap.new keys (ptrs.map heap) with
      | .ok t => (some t, ptrs.map (fun _ => none), catchUnwind (.ok ()))
      | .error e => (none, ptrs.map (fun _ => none), catchUnwind (.err e))
    else
      (none, ptrs.map some, catchUnwind (.err (.invalidParameter
        "got the same block more than once when constructing a tensor map")))
  else
    (none, ptrs.map some, catchUnwind (.err (.invalidParameter "invalid labels")))

/-- One token of the archive byte stream.  The codec is modelled at token
granularity: each token stands for the fixed-width, fixed-endianness
encoding of one value, so token-list equality models byte-for-byte
equality.  Modelled from the spec (section 4.5): the container codec of
`equistore::io` is not part of the source excerpt. -/
inductive Tok where
  | nat (n : Nat)
  | int (i : Int)
  | str (s : String)
deriving DecidableEq

/-- An archive buffer: a sequence of tokens. -/
abbrev Buf : Type := List Tok

/-- Serialize a Labels: name count, names, entry count, then every entry's
values in order. -/
def encodeLabels (l : Labels) : Buf :=
  Tok.nat l.names.length :: (l.names.map Tok.str ++
    (Tok.nat l.entries.length :: l.entries.flatMap (fun e => e.map Tok.int)))

/-- Serialize an array payload in row-major order. -/
def encodeData (d : List (List (List Int))) : Buf :=
  d.flatMap (fun m => m.flatMap (fun r => r.map Tok.int))

/-- Serialize the values of one block: samples, component count, component
Labels, properties, then the payload. -/
def encodeRaw (b : RawBlock) : Buf :=
  encodeLabels b.samples ++
    (Tok.nat b.components.length :: b.components.flatMap encodeLabels) ++
    encodeLabels b.properties ++ encodeData b.data

/-- Serialize one block with its named gradient sub-entries. -/
def encodeBlock (b : Block) : Buf :=
  encodeRaw b.values ++
    (Tok.nat b.gradients.length ::
      b.gradients.flatMap (fun g => Tok.str g.1 :: encodeRaw g.2))

/-- Serialize a map: the keys entry followed by one sub-entry per block, in
key order.  Modelled from the spec (section 4.5). -/
def save (t : TensorMap) : Buf :=
  encodeLabels t.keys ++ t.blocks.flatMap encodeBlock

/-- Read one count token. -/
def readNat : Buf → Except Err (Nat × Buf)
  | Tok.nat n :: rest => .ok (n, rest)
  | _ => .error (.corruptedData "expected an integer count")

/-- Read one value token. -/
def readInt : Buf → Except Err (Int × Buf)
  | Tok.int i :: rest => .ok (i, rest)
  | _ => .error (.corruptedData "expected an integer value")

/-- Read one name token. -/
def readStr : Buf → Except Err (String × Buf)
  | Tok.str s :: rest => .ok (s, rest)
  | _ => .error (.corruptedData "expected a string")

/-- Read a counted sequence with the given element reader. -/
def readCount (p : Buf → Except Err (α × Buf)) : Nat → Buf → Except Err (List α × Buf)
  | 0, b => .ok ([], b)
  | n + 1, b =>
    match p b with
    | .error e => .error e
    | .ok (x, b1) =>
      match readCount p n b1 with
      | .error e => .error e
      | .ok (xs, b2) => .ok (x :: xs, b2)

/-- Parse a Labels entry: name count, that many names, entry count, that
many entries of the declared arity. -/
def readLabels (b : Buf) : Except Err (Labels × Buf) :=
  match readNat b with
  | .error e => .error e
  | .ok (nn, b1) =>
    match readCount readStr nn b1 with
    | .error e => .error e
    | .ok (names, b2) =>
      match readNat b2 with
      | .error e => .error e
      | .ok (ne, b3) =>
        match readCount (readCount readInt nn) ne b3 with
        | .error e => .error e
        | .ok (entries, b4) => .ok (⟨names, entries⟩, b4)

/-- Parse the values of one block; the payload extents are dictated by the
parsed axis Labels. -/
def readRaw (b : Buf) : Except Err (RawBlock × Buf) :=
  match readLabels b with
  | .error e => .error e
  | .ok (samples, b1) =>
    match readNat b1 with
    | .error e => .error e
    | .ok (nc, b2) =>
      match readCount readLabels nc b2 with
      | .error e => .error e
      | .ok (comps, b3) =>
        match readLabels b3 with
        | .error e => .error e
        | .ok (props, b4) =>
          match readCount
              (readCount (readCount readInt props.entries.length)
                (prodCounts comps))
              samples.entries.length b4 with
          | .error e => .error e
          | .ok (d, b5) => .ok (⟨samples, comps, props, d⟩, b5)

/-- Parse one named gradient sub-entry. -/
def readGrad (b : Buf) : Except Err ((String × RawBlock) × Buf) :=
  match readStr b with
  | .error e => .error e
  | .ok (name, b1) =>
    match readRaw b1 with
    | .error e => .error e
    | .ok (g, b2) => .ok ((name, g), b2)

/-- Parse one block with its gradient sub-entries. -/
def readBlock (b : Buf) : Except Err (Block × Buf) :=
  match readRaw b with
  | .error e => .error e
  | .ok (v, b1) =>
    match readNat b1 with
    | .error e => .error e
    | .ok (ng, b2) =>
      match readCount readGrad ng b2 with
      | .error e => .error e
      | .ok (gs, b3) => .ok (⟨v, gs⟩, b3)

/-- Deserialize a map from a complete buffer: parse the keys, then one block
per key entry, require the buffer to be fully consumed, and re-run every
construction-time invariant check, failing with a structural error on
violation.  Modelled from the spec (section 4.5). -/
def load (b : Buf) : Except Err TensorMap :=
  match readLabels b with
  | .error e => .error e
  | .ok (keys, b1) =>
    match readCount readBlock keys.entries.length b1 with
    | .error e => .error e
    | .ok (blocks, b2) =>
      match b2 with
      | [] =>
        if TensorMap.wf ⟨keys, blocks⟩ then .ok ⟨keys, blocks⟩
        else .error (.corruptedData "archive failed structural validation")
      | _ => .error (.corruptedData "unexpected trailing data in the archive")

/-- The shape of a block's array: sample count, one extent per component
axis, property count. -/
def RawBlock.shape (b : RawBlock) : List Nat :=
  b.samples.entries.length ::
    (b.components.map (fun c => c.entries.length) ++ [b.properties.entries.length])

/-- The gradient sub-block named `positions` of block 13 of the test
fixture.  Modelled from the spec: the fixture archive
`equistore/tests/data.npz` is a binary file outside the source excerpt, and
is known only through the assertions of
`equistore/tests/serialization.rs::check_tensor`; unasserted contents (the
label values and the numeric payload) are filled with arbitrary values of
the asserted shapes. -/
def fixtureGrad : RawBlock :=
  ⟨⟨["sample", "structure", "atom"],
      (List.range 27).map (fun i => [Int.ofNat (i % 9), 0, Int.ofNat i])⟩,
    [⟨["gradient_direction"], [[0], [1], [2]]⟩,
      ⟨["spherical_harmonics_m"], [[-1], [0], [1]]⟩],
    ⟨["n"], [[0], [1], [2]]⟩,
    List.replicate 27 (List.replicate 9 (List.replicate 3 0))⟩

/-- Block 13 of the test fixture.  Modelled from the spec: known only
through the assertions of `check_tensor`. -/
def fixtureBlock13 : Block :=
  ⟨⟨⟨["structure", "center"], (List.range 9).map (fun i => [Int.ofNat i, 0])⟩,
      [⟨["spherical_harmonics_m"], [[-1], [0], [1]]⟩],
      ⟨["n"], [[0], [1], [2]]⟩,
      List.replicate 9 (List.replicate 3 (List.replicate 3 0))⟩,
    [("positions", fixtureGrad)]⟩

/-- A minimal well-formed block standing for the fixture blocks the test
does not inspect. -/
def fixtureOther : Block :=
  ⟨⟨⟨["structure", "center"], [[0, 0]]⟩, [], ⟨["n"], [[0]]⟩, [[[0]]]⟩, []⟩

/-- The test fixture tensor map: 27 keys over
`[spherical_harmonics_l, center_species, neighbor_species]`, with block 13
as asserted by `check_tensor`.  Modelled from the spec: known only through
the assertions of `equistore/tests/serialization.rs`. -/
def fixtureTensor : TensorMap :=
  ⟨⟨["spherical_harmonics_l", "center_species", "neighbor_species"],
      (List.range 27).map (fun i => [Int.ofNat i, 0, 0])⟩,
    (List.range 27).map (fun i => if i = 13 then fixtureBlock13 else fixtureOther)⟩

/-- A small well-formed map used to instantiate the boundary theorems: one
key, one block. -/
def demoMap : TensorMap := ⟨⟨["k"], [[0]]⟩, [fixtureOther]⟩

/-- A one-block map with a single two-valued component axis, used to
instantiate the components-to-properties theorem. -/
def demoMap7 : TensorMap :=
  ⟨⟨["k"], [[0]]⟩,
    [⟨⟨⟨["s"], [[0]]⟩, [⟨["c"], [[0], [1]]⟩], ⟨["p"], [[7]]⟩, [[[1], [2]]]⟩, []⟩]⟩

/-- The result of moving component `c` of `demoMap7` into the properties. -/
def demoMap7res : TensorMap :=
  ⟨⟨["k"], [[0]]⟩,
    [⟨⟨⟨["s"], [[0]]⟩, [], ⟨["c", "p"], [[0, 7], [1, 7]]⟩, [[[1, 2]]]⟩, []⟩]⟩

/-- A block with a one-entry property axis holding the given value. -/
def demoBlockP (v : Int) : Block :=
  ⟨⟨⟨["s"], [[0]]⟩, [], ⟨["p"], [[v]]⟩, [[[v]]]⟩, []⟩

/-- Two keys with equal residual under variable `a` but blocks with
different property Labels. -/
def demoMap6 : TensorMap :=
  ⟨⟨["a", "b"], [[0, 0], [1, 0]]⟩, [demoBlockP 0, demoBlockP 1]⟩

/-- Two blocks with equal residual key under variable `a` but different
sample entries, used to instantiate the keys-to-properties theorem. -/
def demoMap5 : TensorMap :=
  ⟨⟨["a", "b"], [[0, 0], [1, 0]]⟩,
    [⟨⟨⟨["s"], [[0]]⟩, [], ⟨["p"], [[0]]⟩, [[[1]]]⟩, []⟩,
      ⟨⟨⟨["s"], [[1]]⟩, [], ⟨["p"], [[0]]⟩, [[[2]]]⟩, []⟩]⟩

/-- The result of moving key variable `a` of `demoMap5` into the
properties: one merged block with the sorted union of samples and
zero-filled missing cells. -/
def demoMap5res : TensorMap :=
  ⟨⟨["b"], [[0]]⟩,
    [⟨⟨⟨["s"], [[0], [1]]⟩, [], ⟨["a", "p"], [[0, 0], [1, 0]]⟩,
        [[[1, 0]], [[0, 2]]]⟩, []⟩]⟩

/-- A concrete well-formed archive buffer: the canonical encoding of
`demoMap`. -/
def demoBuf : Buf :=
  [Tok.nat 1, Tok.str "k", Tok.nat 1, Tok.int 0,
    Tok.nat 2, Tok.str "structure", Tok.str "center", Tok.nat 1,
    Tok.int 0, Tok.int 0,
    Tok.nat 0,
    Tok.nat 1, Tok.str "n", Tok.nat 1, Tok.int 0,
    Tok.int 0,
    Tok.nat 0]

/-- Head-first characterization of the lexicographic comparison. -/
theorem lexLe_cons (x y : Int) (xs ys : List Int) :
    lexLe (x :: xs) (y :: ys) = true ↔ x < y ∨ (x = y ∧ lexLe xs ys = true) := by
  simp only [lexLe]
  by_cases h1 : x < y
  · rw [if_pos h1]; simp [h1]
  · rw [if_neg h1]
    by_cases h2 : x = y
    · rw [if_pos h2]; simp [h1, h2]
    · rw [if_neg h2]; simp [h1, h2]

/-- The lexicographic comparison is total. -/
theorem lexLe_total (a b : List Int) : lexLe a b = true ∨ lexLe b a = true := by
  induction a generalizing b with
  | nil => exact Or.inl rfl
  | cons x xs ih =>
    cases b with
    | nil => exact Or.inr rfl
    | cons y ys =>
      rcases lt_trichotomy x y with h | h | h
      · exact Or.inl ((lexLe_cons ..).mpr (Or.inl h))
      · cases ih ys with
        | inl hl => exact Or.inl ((lexLe_cons ..).mpr (Or.inr ⟨h, hl⟩))
        | inr hr => exact Or.inr ((lexLe_cons ..).mpr (Or.inr ⟨h.symm, hr⟩))
      · exact Or.inr ((lexLe_cons ..).mpr (Or.inl h))

/-- The lexicographic comparison is transitive. -/
theorem lexLe_trans (a b c : List Int) (h1 : lexLe a b = true)
    (h2 : lexLe b c = true) : lexLe a c = true := by
  induction a generalizing b c with
  | nil => rfl
  | cons x xs ih =>
    cases b with
    | nil => cases h1
    | cons y ys =>
      cases c with
      | nil => cases h2
      | cons z zs =>
        rw [lexLe_cons] at h1 h2 ⊢
        rcases h1 with h1 | ⟨h1e, h1r⟩ <;> rcases h2 with h2 | ⟨h2e, h2r⟩
        · exact Or.inl (by omega)
        · exact Or.inl (by omega)
        · exact Or.inl (by omega)
        · exact Or.inr ⟨by omega, ih ys zs h1r h2r⟩

instance : IsTotal (List Int) LexLe := ⟨lexLe_total⟩

instance : IsTrans (List Int) LexLe := ⟨lexLe_trans⟩

/-- Every status is either success or carries a retrievable message. -/
theorem status_message_total (s : Status) :
    s = .success ∨ ∃ m, s.message = some m := by
  cases s with
  | success => exact Or.inl rfl
  | failed e => exact Or.inr ⟨e.msg, rfl⟩

/-- A boundary reshape call whose status is not success leaves the map
unchanged. -/
theorem runReshape_frame (t : TensorMap) (vars : List CVar)
    (op : TensorMap → List String → Except Err TensorMap)
    (h : (runReshape t vars op).2 ≠ .success) : (runReshape t vars op).1 = t := by
  cases hc : collectVars vars with
  | ok names =>
    cases hop : op t names with
    | ok t2 =>
      have hs : (runReshape t vars op).2 = .success := by
        simp only [runReshape, hc, hop]
        rfl
      exact absurd hs h
    | error e => simp only [runReshape, hc, hop]
  | err e => simp only [runReshape, hc]
  | fault m => simp only [runReshape, hc]

/-- Decoding the boundary variable names faults on invalid UTF-8. -/
theorem collectVars_invalid (vars : List CVar) (h : CVar.invalid ∈ vars) :
    collectVars vars = .fault "invalid utf8" := by
  induction vars with
  | nil => cases h
  | cons v rest ih =>
    cases v with
    | utf8 s =>
      have hm : CVar.invalid ∈ rest := by
        cases List.mem_cons.mp h with
        | inl he => cases he
        | inr hr => exact hr
      simp only [collectVars, ih hm]
    | invalid => rfl

/-- C2 (amended): for an index below the number of blocks the boundary
accessor succeeds and returns the block at that index; for an index at or
past the end, the slice-index panic is caught at the boundary and reported
as an internal error — not as an `OutOfBounds` error. -/
theorem claim_C2_block_by_id (t : TensorMap) (index : Nat) :
    (∀ h : index < t.blocks.length,
      aml_tensormap_block_by_id t index =
        (some (t.blocks.get ⟨index, h⟩), .success)) ∧
    (t.blocks.length ≤ index →
      aml_tensormap_block_by_id t index =
        (none, .failed (.internalError "index out of bounds"))) := by
  constructor
  · intro h
    simp only [aml_tensormap_block_by_id, dif_pos h, catchUnwind]
  · intro h
    have hn : ¬ index < t.blocks.length := Nat.not_lt.mpr h
    simp only [aml_tensormap_block_by_id, dif_neg hn, catchUnwind]

/-- C2 witness: concrete instantiations of both branches. -/
theorem claim_C2_block_by_id_witness :
    aml_tensormap_block_by_id demoMap 1 =
      (none, .failed (.internalError "index out of bounds")) :=
  (claim_C2_block_by_id demoMap 1).2 (by decide)

/-- C2 counterexample: at a concrete out-of-range index the boundary
accessor fails, but not with the `OutOfBounds` error kind the claim
states. -/
theorem claim_C2_counterexample :
    (aml_tensormap_block_by_id demoMap 1).2 ≠ .success ∧
    (aml_tensormap_block_by_id demoMap 1).2.isOutOfBounds = false := by
  decide

/-- C3 (amended): the fixture map is well-formed, has 27 keys named
`[spherical_harmonics_l, center_species, neighbor_species]`, and its block
13 has array shape `[9, 3, 3]`, samples named `[structure, center]`, one
component axis named `spherical_harmonics_m`, properties named `n`, and one
gradient named `positions` with array shape `[27, 3, 3, 3]`, samples named
`[sample, structure, atom]` and two component axes named
`[gradient_direction, spherical_harmonics_m]`. -/
theorem claim_C3_fixture :
    fixtureTensor.wf = true ∧
    fixtureTensor.keys.names =
      ["spherical_harmonics_l", "center_species", "neighbor_species"] ∧
    fixtureTensor.keys.count = 27 ∧
    (aml_tensormap_block_by_id fixtureTensor 13).1 = some fixtureBlock13 ∧
    fixtureBlock13.values.shape = [9, 3, 3] ∧
    fixtureBlock13.values.samples.names = ["structure", "center"] ∧
    fixtureBlock13.values.components.map Labels.names = [["spherical_harmonics_m"]] ∧
    fixtureBlock13.values.properties.names = ["n"] ∧
    fixtureBlock13.gradients.map Prod.fst = ["positions"] ∧
    fixtureGrad.shape = [27, 3, 3, 3] ∧
    fixtureGrad.samples.names = ["sample", "structure", "atom"] ∧
    fixtureGrad.components.map Labels.names =
      [["gradient_direction"], ["spherical_harmonics_m"]] ∧
    fixtureGrad.properties.names = ["n"] := by
  decide

/-- C3 counterexample: the fixture's key names are not
`[l, center_species, neighbor_species]` — the first key variable is named
`spherical_harmonics_l` in the source test. -/
theorem claim_C3_counterexample :
    fixtureTensor.keys.names ≠ ["l", "center_species", "neighbor_species"] := by
  decide

/-- C4: with valid keys, map construction at the boundary fails exactly when
the same block handle is supplied twice or the key count differs from the
block count; failures are `InvalidParameter`; and duplicate handles are
rejected before any block is consumed (the caller's array is untouched). -/
theorem claim_C4_build (keys : Labels) (heap : Nat → Block) (ptrs : List Nat)
    (hkeys : keys.valid = true) :
    ((aml_tensormap keys heap ptrs).1 = none ↔
      (¬ ptrs.Nodup ∨ keys.entries.length ≠ ptrs.length)) ∧
    ((aml_tensormap keys heap ptrs).2.2 ≠ .success →
      ∃ m, (aml_tensormap keys heap ptrs).2.2 = .failed (.invalidParameter m)) ∧
    (¬ ptrs.Nodup → (aml_tensormap keys heap ptrs).2.1 = ptrs.map some) := by
  by_cases hnd : ptrs.Nodup
  · by_cases hlen : keys.entries.length = ptrs.length
    · have hv : aml_tensormap keys heap ptrs =
          (some ⟨keys, ptrs.map heap⟩, ptrs.map (fun _ => none), .success) := by
        unfold aml_tensormap TensorMap.new
        rw [if_pos hkeys, if_pos (decide_eq_true hnd),
          if_pos (by rw [List.length_map]; exact hlen)]
        rfl
      rw [hv]
      refine ⟨?_, ?_, ?_⟩
      · constructor
        · intro h; exact (Option.some_ne_none _ h).elim
        · intro h
          rcases h with h | h
          · exact absurd hnd h
          · exact absurd hlen h
      · intro h; exact absurd rfl h
      · intro h; exact absurd hnd h
    · have hv : aml_tensormap keys heap ptrs =
          (none, ptrs.map (fun _ => none),
            .failed (.invalidParameter "wrong number of blocks")) := by
        unfold aml_tensormap TensorMap.new
        rw [if_pos hkeys, if_pos (decide_eq_true hnd),
          if_neg (fun hc => hlen (by rwa [List.length_map] at hc))]
        rfl
      rw [hv]
      refine ⟨?_, ?_, ?_⟩
      · exact ⟨fun _ => Or.inr hlen, fun _ => rfl⟩
      · intro _; exact ⟨"wrong number of blocks", rfl⟩
      · intro h; exact absurd hnd h
  · have hv : aml_tensormap keys heap ptrs =
        (none, ptrs.map some, .failed (.invalidParameter
          "got the same block more than once when constructing a tensor map")) := by
      unfold aml_tensormap
      rw [if_pos hkeys, if_neg (fun hc => hnd (of_decide_eq_true hc))]
      rfl
    rw [hv]
    refine ⟨?_, ?_, ?_⟩
    · exact ⟨fun _ => Or.inl hnd, fun _ => rfl⟩
    · intro _
      exact ⟨"got the same block more than once when constructing a tensor map", rfl⟩
    · intro _; rfl

/-- C4 witness: a duplicate handle is rejected at concrete inputs. -/
theorem claim_C4_build_witness :
    (aml_tensormap ⟨["k"], [[0]]⟩ (fun _ => fixtureOther) [7, 7]).1 = none :=
  (claim_C4_build ⟨["k"], [[0]]⟩ (fun _ => fixtureOther) [7, 7] (by decide)).1.mpr
    (Or.inl (by decide))

/-- C10: whenever the block-pointer array passes the uniqueness check, every
entry of the caller's array is overwritten with null — whether or not the
subsequent map construction succeeds. -/
theorem claim_C10_blocks_consumed (keys : Labels) (heap : Nat → Block)
    (ptrs : List Nat) (hkeys : keys.valid = true) (huniq : ptrs.Nodup) :
    (aml_tensormap keys heap ptrs).2.1 = ptrs.map (fun _ => none) := by
  unfold aml_tensormap
  rw [if_pos hkeys, if_pos (decide_eq_true huniq)]
  cases TensorMap.new keys (ptrs.map heap) <;> rfl

/-- C10 witness: construction fails (two blocks for one key) yet both caller
entries are nulled. -/
theorem claim_C10_blocks_consumed_witness :
    (aml_tensormap ⟨["k"], [[0]]⟩ (fun _ => fixtureOther) [0, 1]).2.1 =
      [none, none] := by
  have h := claim_C10_blocks_consumed ⟨["k"], [[0]]⟩ (fun _ => fixtureOther)
    [0, 1] (by decide) (by decide)
  simpa using h

/-- C8: if any of the three boundary reshape operations reports a failure
status, the map is returned exactly as it was — no partial mutation. -/
theorem claim_C8_no_partial_mutation :
    (∀ t vars, (aml_tensormap_keys_to_properties t vars).2 ≠ .success →
      (aml_tensormap_keys_to_properties t vars).1 = t) ∧
    (∀ t vars, (aml_tensormap_keys_to_samples t vars).2 ≠ .success →
      (aml_tensormap_keys_to_samples t vars).1 = t) ∧
    (∀ t vars, (aml_tensormap_components_to_properties t vars).2 ≠ .success →
      (aml_tensormap_components_to_properties t vars).1 = t) :=
  ⟨fun t vars h => runReshape_frame t vars keysToProperties h,
    fun t vars h => runReshape_frame t vars keysToSamples h,
    fun t vars h => runReshape_frame t vars componentsToProperties h⟩

/-- C8 witness: a failing keys-to-properties call at concrete inputs leaves
the map unchanged. -/
theorem claim_C8_no_partial_mutation_witness :
    (aml_tensormap_keys_to_properties demoMap [CVar.utf8 "absent"]).1 = demoMap :=
  claim_C8_no_partial_mutation.1 demoMap [CVar.utf8 "absent"] (by decide)

/-- C9: the foreign boundary never lets an internal fault escape: the
variable-decoding panic on non-UTF-8 input becomes an internal-error status
with its message stored and the map untouched, and every modelled entry
point returns a status that is either success or carries a retrievable
message. -/
theorem claim_C9_fault_containment :
    (∀ t vars, CVar.invalid ∈ vars →
      aml_tensormap_keys_to_properties t vars =
          (t, .failed (.internalError "invalid utf8")) ∧
      aml_tensormap_keys_to_samples t vars =
          (t, .failed (.internalError "invalid utf8")) ∧
      aml_tensormap_components_to_properties t vars =
          (t, .failed (.internalError "invalid utf8"))) ∧
    (∀ t vars, (aml_tensormap_keys_to_properties t vars).2 = .success ∨
      ∃ m, (aml_tensormap_keys_to_properties t vars).2.message = some m) ∧
    (∀ t vars, (aml_tensormap_keys_to_samples t vars).2 = .success ∨
      ∃ m, (aml_tensormap_keys_to_samples t vars).2.message = some m) ∧
    (∀ t vars, (aml_tensormap_components_to_properties t vars).2 = .success ∨
      ∃ m, (aml_tensormap_components_to_properties t vars).2.message = some m) ∧
    (∀ t index, (aml_tensormap_block_by_id t index).2 = .success ∨
      ∃ m, (aml_tensormap_block_by_id t index).2.message = some m) ∧
    (∀ keys heap ptrs, (aml_tensormap keys heap ptrs).2.2 = .success ∨
      ∃ m, (aml_tensormap keys heap ptrs).2.2.message = some m) ∧
    (∀ t, aml_tensormap_free t = .success) := by
  refine ⟨?_, ?_, ?_, ?_, ?_, ?_, ?_⟩
  · intro t vars h
    have hc := collectVars_invalid vars h
    refine ⟨?_, ?_, ?_⟩ <;>
      simp only [aml_tensormap_keys_to_properties, aml_tensormap_keys_to_samples,
        aml_tensormap_components_to_properties, runReshape, hc, catchUnwind]
  · intro t vars; exact status_message_total _
  · intro t vars; exact status_message_total _
  · intro t vars; exact status_message_total _
  · intro t index; exact status_message_total _
  · intro keys heap ptrs; exact status_message_total _
  · intro t; rfl

/-- C9 witness: a non-UTF-8 variable name at concrete inputs yields the
internal-error status rather than unwinding. -/
theorem claim_C9_fault_containment_witness :
    aml_tensormap_keys_to_properties demoMap [CVar.invalid] =
      (demoMap, .failed (.internalError "invalid utf8")) :=
  (claim_C9_fault_containment.1 demoMap [CVar.invalid] (by decide)).1

/-- Membership in the first-seen deduplication with an accumulator. -/
theorem dedupFirstAux_mem (seen : List (List Int)) (l : List (List Int)) (a : List Int) :
    a ∈ dedupFirstAux seen l ↔ a ∈ l ∧ a ∉ seen := by
  induction l generalizing seen with
  | nil => simp [dedupFirstAux]
  | cons x xs ih =>
    by_cases hx : x ∈ seen
    · rw [dedupFirstAux, if_pos hx, ih]
      constructor
      · intro ⟨h1, h2⟩; exact ⟨List.mem_cons_of_mem _ h1, h2⟩
      · intro ⟨h1, h2⟩
        cases List.mem_cons.mp h1 with
        | inl he => exact absurd (he ▸ hx) h2
        | inr hm => exact ⟨hm, h2⟩
    · rw [dedupFirstAux, if_neg hx]
      constructor
      · intro h
        cases List.mem_cons.mp h with
        | inl he => exact ⟨he ▸ List.mem_cons_self x xs, he ▸ hx⟩
        | inr hm =>
          have := (ih (x :: seen)).mp hm
          exact ⟨List.mem_cons_of_mem _ this.1,
            fun hs => this.2 (List.mem_cons_of_mem _ hs)⟩
      · intro ⟨h1, h2⟩
        cases List.mem_cons.mp h1 with
        | inl he => exact he ▸ List.mem_cons_self _ _
        | inr hm =>
          by_cases hax : a = x
          · exact hax ▸ List.mem_cons_self _ _
          · exact List.mem_cons_of_mem _ ((ih (x :: seen)).mpr
              ⟨hm, fun hs => (List.mem_cons.mp hs).elim hax h2⟩)

/-- Membership in the first-seen deduplication. -/
theorem dedupFirst_mem (l : List (List Int)) (a : List Int) :
    a ∈ dedupFirst l ↔ a ∈ l := by
  rw [dedupFirst, dedupFirstAux_mem]
  simp

/-- The first-seen deduplication has no duplicates. -/
theorem dedupFirstAux_nodup (seen : List (List Int)) (l : List (List Int)) :
    (dedupFirstAux seen l).Nodup := by
  induction l generalizing seen with
  | nil => exact List.nodup_nil
  | cons x xs ih =>
    by_cases hx : x ∈ seen
    · rw [dedupFirstAux, if_pos hx]; exact ih seen
    · rw [dedupFirstAux, if_neg hx]
      refine List.nodup_cons.mpr ⟨?_, ih (x :: seen)⟩
      intro hmem
      exact ((dedupFirstAux_mem _ _ _).mp hmem).2 (List.mem_cons_self _ _)

/-- The first-seen deduplication has no duplicates. -/
theorem dedupFirst_nodup (l : List (List Int)) : (dedupFirst l).Nodup :=
  dedupFirstAux_nodup [] l

/-- Any member of a map whose blocks match its keys contributes a non-empty
merge group for its residual key. -/
theorem contribPairs_ne_nil (t : TensorMap) (vars : List String) (r : List Int)
    (hlen : t.keys.entries.length = t.blocks.length)
    (hr : r ∈ residualList t vars) : contribPairs t vars r ≠ [] := by
  rw [residualList, dedupFirst_mem] at hr
  obtain ⟨k, hk, hres⟩ := List.mem_map.mp hr
  obtain ⟨⟨i, hik⟩, hget⟩ := List.mem_iff_get.mp hk
  have hib : i < t.blocks.length := hlen ▸ hik
  have hiz : i < (t.keys.entries.zip t.blocks).length := by
    rw [List.length_zip]
    exact lt_min hik hib
  have hmemz : (k, t.blocks.get ⟨i, hib⟩) ∈ t.keys.entries.zip t.blocks := by
    have hz : (t.keys.entries.zip t.blocks).get ⟨i, hiz⟩ =
        (k, t.blocks.get ⟨i, hib⟩) := by
      simp only [List.get_eq_getElem, List.getElem_zip, Prod.mk.injEq]
      exact ⟨by simpa using hget, trivial⟩
    exact hz ▸ List.get_mem _ _ _
  have hmem : (k, t.blocks.get ⟨i, hib⟩) ∈ contribPairs t vars r := by
    rw [contribPairs, List.mem_filter]
    exact ⟨hmemz, decide_eq_true (by simpa using hres)⟩
  exact List.ne_nil_of_mem hmem

/-- On a non-empty group, the keys-to-samples merge either succeeds or
fails with `InvalidParameter`. -/
theorem mergeGroupS_not_internal (kn vars : List String)
    (contrib : List (List Int × Block)) (hne : contrib ≠ []) :
    (∃ b, mergeGroupS kn vars contrib = .ok b) ∨
    (∃ m, mergeGroupS kn vars contrib = .error (.invalidParameter m)) := by
  cases contrib with
  | nil => exact absurd rfl hne
  | cons p0 rest =>
    rw [mergeGroupS]
    by_cases h1 : (p0 :: rest).all (fun p => labelsEq p.2.values.properties p0.2.values.properties)
    · rw [if_pos h1]
      by_cases h2 : (p0 :: rest).all (fun p =>
          p.2.values.samples.names = p0.2.values.samples.names &&
          p.2.values.components = p0.2.values.components)
      · rw [if_pos h2]
        exact Or.inl ⟨_, rfl⟩
      · rw [if_neg h2]
        exact Or.inr ⟨_, rfl⟩
    · rw [if_neg h1]
      exact Or.inr ⟨_, rfl⟩

/-- If every element maps to a success or an `InvalidParameter` failure and
some element fails, the whole traversal fails with `InvalidParameter`. -/
theorem mapExcept_invp {α β : Type} {f : α → Except Err β} {l : List α}
    (hall : ∀ x ∈ l, (∃ b, f x = .ok b) ∨ (∃ m, f x = .error (.invalidParameter m)))
    (hx : ∃ x ∈ l, ∃ m, f x = .error (.invalidParameter m)) :
    ∃ m, mapExcept f l = .error (.invalidParameter m) := by
  induction l with
  | nil => obtain ⟨x, hx1, _⟩ := hx; cases hx1
  | cons y ys ih =>
    cases hall y (List.mem_cons_self _ _) with
    | inl hok =>
      obtain ⟨b, hb⟩ := hok
      obtain ⟨x, hx1, m, hm⟩ := hx
      have hxys : x ∈ ys := by
        cases List.mem_cons.mp hx1 with
        | inl he => rw [he] at hm; rw [hm] at hb; cases hb
        | inr h => exact h
      obtain ⟨m2, hm2⟩ := ih (fun z hz => hall z (List.mem_cons_of_mem _ hz))
        ⟨x, hxys, m, hm⟩
      refine ⟨m2, ?_⟩
      rw [mapExcept, hb, hm2]
    | inr herr =>
      obtain ⟨m, hm⟩ := herr
      refine ⟨m, ?_⟩
      rw [mapExcept, hm]

/-- C6: whenever two blocks fall into the same keys-to-samples merge group
(equal residual keys) but have different property Labels, the operation
fails with `InvalidParameter`. -/
theorem claim_C6_keys_to_samples_alignment (t : TensorMap) (vars : List String)
    (r k1 k2 : List Int) (b1 b2 : Block)
    (hlen : t.keys.entries.length = t.blocks.length)
    (hvalid : ksValid t vars = true)
    (hp1 : (k1, b1) ∈ contribPairs t vars r)
    (hp2 : (k2, b2) ∈ contribPairs t vars r)
    (hprops : b1.values.properties ≠ b2.values.properties) :
    ∃ m, keysToSamples t vars = .error (.invalidParameter m) := by
  have hr : r ∈ residualList t vars := by
    rw [contribPairs, List.mem_filter] at hp1
    have hk1 : k1 ∈ t.keys.entries := (List.of_mem_zip hp1.1).1
    rw [residualList, dedupFirst_mem]
    exact List.mem_map.mpr ⟨k1, hk1, of_decide_eq_true hp1.2⟩
  have hgrp : ∃ m, mergeGroupS t.keys.names vars (contribPairs t vars r) =
      .error (.invalidParameter m) := by
    cases hc : contribPairs t vars r with
    | nil => rw [hc] at hp1; cases hp1
    | cons p0 rest =>
      rw [mergeGroupS]
      have hfalse : ¬ (p0 :: rest).all
          (fun p => labelsEq p.2.values.properties p0.2.values.properties) := by
        intro hall
        have h1 : b1.values.properties = p0.2.values.properties :=
          of_decide_eq_true (List.all_eq_true.mp hall (k1, b1) (hc ▸ hp1))
        have h2 : b2.values.properties = p0.2.values.properties :=
          of_decide_eq_true (List.all_eq_true.mp hall (k2, b2) (hc ▸ hp2))
        exact hprops (h1.trans h2.symm)
      rw [if_neg hfalse]
      exact ⟨_, rfl⟩
  have hmap : ∃ m, mapExcept
      (fun rr => mergeGroupS t.keys.names vars (contribPairs t vars rr))
      (residualList t vars) = .error (.invalidParameter m) := by
    refine mapExcept_invp ?_ ⟨r, hr, hgrp⟩
    intro rr hrr
    exact mergeGroupS_not_internal t.keys.names vars (contribPairs t vars rr)
      (contribPairs_ne_nil t vars rr hlen hrr)
  obtain ⟨m, hm⟩ := hmap
  refine ⟨m, ?_⟩
  rw [keysToSamples, if_pos hvalid, hm]

/-- Pointwise characterization of a successful exception-returning map. -/
theorem mapExcept_ok {α β : Type} {f : α → Except Err β} :
    ∀ {l : List α} {l' : List β}, mapExcept f l = .ok l' →
      l'.length = l.length ∧
      ∀ i (h : i < l.length) (h' : i < l'.length),
        f (l.get ⟨i, h⟩) = .ok (l'.get ⟨i, h'⟩) := by
  intro l
  induction l with
  | nil =>
    intro l' h
    rw [mapExcept] at h
    cases h
    exact ⟨rfl, fun i hi => absurd hi (Nat.not_lt_zero i)⟩
  | cons x xs ih =>
    intro l' h
    rw [mapExcept] at h
    cases hx : f x with
    | error e => rw [hx] at h; cases h
    | ok y =>
      rw [hx] at h
      cases hxs : mapExcept f xs with
      | error e => rw [hxs] at h; cases h
      | ok ys =>
        rw [hxs] at h
        cases h
        obtain ⟨hl, hp⟩ := ih hxs
        refine ⟨by simp [hl], ?_⟩
        intro i hi hi'
        cases i with
        | zero => exact hx
        | succ n =>
          exact hp n (Nat.lt_of_succ_lt_succ hi) (Nat.lt_of_succ_lt_succ hi')

/-- The extent product of a non-empty axis list. -/
theorem prodCounts_cons (c : Labels) (cs : List Labels) :
    prodCounts (c :: cs) = c.entries.length * prodCounts cs := by
  rw [prodCounts, List.map_cons, List.prod_cons, ← prodCounts]

/-- Length of the flat expansion pairing every element of `l` with every
element of `g`. -/
theorem length_flatMap_append {γ : Type} (l : List (List γ)) (g : List (List γ)) :
    (l.flatMap (fun e => g.map (fun q => e ++ q))).length = l.length * g.length := by
  induction l with
  | nil => simp
  | cons e rest ih =>
    rw [List.flatMap_cons, List.length_append, List.length_map, ih, List.length_cons]
    ring

/-- The number of combinations of the entries of a list of axes is the
product of their extents. -/
theorem cartesianVals_length (axes : List Labels) :
    (cartesianVals axes).length = prodCounts axes := by
  induction axes with
  | nil => rfl
  | cons c cs ih =>
    rw [cartesianVals, length_flatMap_append, ih, prodCounts_cons]

/-- The component-extent product splits over a filter and its negation. -/
theorem prodCounts_filter_split (q : Labels → Bool) (comps : List Labels) :
    prodCounts (comps.filter q) * prodCounts (comps.filter (fun c => !(q c))) =
      prodCounts comps := by
  induction comps with
  | nil => rfl
  | cons c cs ih =>
    by_cases hq : q c
    · rw [List.filter_cons_of_pos hq, List.filter_cons_of_neg (by simp [hq]),
        prodCounts_cons, prodCounts_cons, ← ih]
      ring
    · rw [List.filter_cons_of_neg (by simpa using hq),
        List.filter_cons_of_pos (by simpa using hq),
        prodCounts_cons, prodCounts_cons, ← ih]
      ring

/-- A predicate satisfied exactly once: the finder returns the unique
witness and the filter is that singleton. -/
theorem countP_one_find (p : Labels → Bool) :
    ∀ (comps : List Labels), comps.countP p = 1 →
      ∃ c, comps.find? p = some c ∧ comps.filter p = [c] := by
  intro comps
  induction comps with
  | nil => intro h; cases h
  | cons d ds ih =>
    intro h
    by_cases hd : p d
    · have hz : ds.countP p = 0 := by
        rw [List.countP_cons, if_pos hd] at h
        omega
      have hfil : ds.filter p = [] :=
        List.filter_eq_nil_iff.mpr (List.countP_eq_zero.mp hz)
      exact ⟨d, List.find?_cons_of_pos _ hd,
        by rw [List.filter_cons_of_pos hd, hfil]⟩
    · have h1 : ds.countP p = 1 := by
        rw [List.countP_cons, if_neg hd] at h
        omega
      obtain ⟨c, hf, hl⟩ := ih h1
      exact ⟨c, by rw [List.find?_cons_of_neg _ (by simpa using hd)]; exact hf,
        by rw [List.filter_cons_of_neg (by simpa using hd)]; exact hl⟩

/-- Disjoint alternatives split the filtered extent product
multiplicatively. -/
theorem prodCounts_filter_or (p q : Labels → Bool) (comps : List Labels)
    (hdis : ∀ c ∈ comps, ¬(p c = true ∧ q c = true)) :
    prodCounts (comps.filter (fun c => p c || q c)) =
      prodCounts (comps.filter p) * prodCounts (comps.filter q) := by
  induction comps with
  | nil => rfl
  | cons c cs ih =>
    have ihs := ih (fun x hx => hdis x (List.mem_cons_of_mem _ hx))
    by_cases hp : p c
    · have hq : ¬ q c = true := fun hq => hdis c (List.mem_cons_self _ _) ⟨hp, hq⟩
      rw [List.filter_cons_of_pos (by simp [hp]), List.filter_cons_of_pos hp,
        List.filter_cons_of_neg (by simpa using hq),
        prodCounts_cons, prodCounts_cons, ihs]
      ring
    · by_cases hq : q c
      · rw [List.filter_cons_of_pos (by simp [hp, hq]),
          List.filter_cons_of_neg (by simpa using hp), List.filter_cons_of_pos hq,
          prodCounts_cons, prodCounts_cons, ihs]
        ring
      · rw [List.filter_cons_of_neg (by simp [hp, hq]),
          List.filter_cons_of_neg (by simpa using hp),
          List.filter_cons_of_neg (by simpa using hq)]
        exact ihs

/-- When every requested variable names exactly one component axis and no
variable is requested twice, the extents of the axes selected in request
order multiply to the extents of the selected axes in axis order. -/
theorem movedAxes_prod (vars : List String) (comps : List Labels)
    (hnd : vars.Nodup)
    (huniq : ∀ v ∈ vars, comps.countP (fun c => c.names = [v]) = 1) :
    prodCounts (movedAxes vars comps) =
      prodCounts (comps.filter (isMovedAxis vars)) := by
  induction vars with
  | nil =>
    have : comps.filter (isMovedAxis []) = [] := by
      apply List.filter_eq_nil_iff.mpr
      intro c _
      simp [isMovedAxis]
    rw [this]
    rfl
  | cons v vs ih =>
    obtain ⟨c0, hfind, hfil⟩ :=
      countP_one_find (fun c => c.names = [v]) comps (huniq v (List.mem_cons_self _ _))
    have hvnotvs : v ∉ vs := (List.nodup_cons.mp hnd).1
    have hsplit : prodCounts (comps.filter (isMovedAxis (v :: vs))) =
        prodCounts (comps.filter (fun c => c.names = [v])) *
          prodCounts (comps.filter (isMovedAxis vs)) := by
      have heq : comps.filter (isMovedAxis (v :: vs)) =
          comps.filter (fun c => decide (c.names = [v]) || isMovedAxis vs c) := by
        apply List.filter_congr
        intro c _
        simp [isMovedAxis]
      rw [heq]
      apply prodCounts_filter_or
      intro c _ ⟨h1, h2⟩
      obtain ⟨v2, hv2, hcv2⟩ := List.any_eq_true.mp h2
      have : v2 = v := by
        have h1' : c.names = [v] := of_decide_eq_true h1
        have h2' : c.names = [v2] := of_decide_eq_true hcv2
        rw [h1'] at h2'
        exact (List.cons.injEq .. ▸ h2').1.symm
      exact hvnotvs (this ▸ hv2)
    have hstep : movedAxes (v :: vs) comps = c0 :: movedAxes vs comps := by
      simp only [movedAxes, List.filterMap_cons, hfind]
    have hih := ih (List.nodup_cons.mp hnd).2
      (fun w hw => huniq w (List.mem_cons_of_mem _ hw))
    rw [hstep, hsplit, hfil, prodCounts_cons, hih]
    simp [prodCounts]

/-- Characterization of a successful per-block components-to-properties
transformation. -/
theorem blockCToP_ok {vars : List String} {b b' : Block}
    (h : blockCToP vars b = .ok b') :
    cpValid vars b = true ∧
    b'.values.samples = b.values.samples ∧
    b'.values.components =
      b.values.components.filter (fun c => !(isMovedAxis vars c)) ∧
    b'.values.properties.names = vars ++ b.values.properties.names ∧
    b'.values.properties.entries.length =
      prodCounts (movedAxes vars b.values.components) *
        b.values.properties.entries.length := by
  rw [blockCToP] at h
  by_cases hv : cpValid vars b
  · rw [if_pos hv] at h
    cases h
    refine ⟨hv, rfl, rfl, rfl, ?_⟩
    show ((cartesianVals (movedAxes vars b.values.components)).flatMap
      (fun cmb => b.values.properties.entries.map (fun q => cmb ++ q))).length = _
    rw [length_flatMap_append, cartesianVals_length]
  · rw [if_neg hv] at h
    cases h

/-- C7: a successful components-to-properties keeps the keys and the block
count (each block is transformed independently), moves the selected
component Labels to a prefix of the property names, removes them from the
component list, and preserves every block's total cell count. -/
theorem claim_C7_components_to_properties (t : TensorMap) (vars : List String)
    (t' : TensorMap) (hok : componentsToProperties t vars = .ok t') :
    t'.keys = t.keys ∧ t'.blocks.length = t.blocks.length ∧
    ∀ i (hi : i < t.blocks.length) (hi' : i < t'.blocks.length),
      blockCToP vars (t.blocks.get ⟨i, hi⟩) = .ok (t'.blocks.get ⟨i, hi'⟩) ∧
      (t'.blocks.get ⟨i, hi'⟩).values.properties.names =
        vars ++ (t.blocks.get ⟨i, hi⟩).values.properties.names ∧
      (t'.blocks.get ⟨i, hi'⟩).values.components =
        (t.blocks.get ⟨i, hi⟩).values.components.filter
          (fun c => !(isMovedAxis vars c)) ∧
      (t'.blocks.get ⟨i, hi'⟩).values.samples.entries.length *
          prodCounts (t'.blocks.get ⟨i, hi'⟩).values.components *
          (t'.blocks.get ⟨i, hi'⟩).values.properties.entries.length =
        (t.blocks.get ⟨i, hi⟩).values.samples.entries.length *
          prodCounts (t.blocks.get ⟨i, hi⟩).values.components *
          (t.blocks.get ⟨i, hi⟩).values.properties.entries.length := by
  rw [componentsToProperties] at hok
  cases hm : mapExcept (blockCToP vars) t.blocks with
  | error e => rw [hm] at hok; cases hok
  | ok blocks =>
    rw [hm] at hok
    cases hok
    obtain ⟨hlen, hp⟩ := mapExcept_ok hm
    refine ⟨rfl, hlen, ?_⟩
    intro i hi hi'
    have hbi := hp i hi hi'
    obtain ⟨hvalid, hsamp, hcomp, hpnames, hplen⟩ := blockCToP_ok hbi
    refine ⟨hbi, hpnames, hcomp, ?_⟩
    have hparts := (Bool.and_eq_true _ _).mp hvalid
    have hparts1 := (Bool.and_eq_true _ _).mp hparts.1
    have hnd : vars.Nodup := of_decide_eq_true hparts1.1
    have huniq : ∀ v ∈ vars,
        (t.blocks.get ⟨i, hi⟩).values.components.countP
          (fun c => c.names = [v]) = 1 := by
      intro v hv
      exact of_decide_eq_true (List.all_eq_true.mp hparts1.2 v hv)
    rw [hsamp, hcomp, hplen, movedAxes_prod vars _ hnd huniq,
      ← prodCounts_filter_split (isMovedAxis vars)
        (t.blocks.get ⟨i, hi⟩).values.components]
    ring

/-- C7 witness: the cell-count equation at a concrete successful call. -/
theorem claim_C7_witness :
    (demoMap7res.blocks.get ⟨0, by decide⟩).values.samples.entries.length *
        prodCounts (demoMap7res.blocks.get ⟨0, by decide⟩).values.components *
        (demoMap7res.blocks.get ⟨0, by decide⟩).values.properties.entries.length =
      (demoMap7.blocks.get ⟨0, by decide⟩).values.samples.entries.length *
        prodCounts (demoMap7.blocks.get ⟨0, by decide⟩).values.components *
        (demoMap7.blocks.get ⟨0, by decide⟩).values.properties.entries.length :=
  ((claim_C7_components_to_properties demoMap7 ["c"] demoMap7res
    (by decide)).2.2 0 (by decide) (by decide)).2.2.2

/-- C6 witness: merging the two misaligned blocks of `demoMap6` along
samples fails with `InvalidParameter`. -/
theorem claim_C6_witness :
    ∃ m, keysToSamples demoMap6 ["a"] = .error (.invalidParameter m) :=
  claim_C6_keys_to_samples_alignment demoMap6 ["a"] [0] [0, 0] [1, 0]
    (demoBlockP 0) (demoBlockP 1) (by decide) (by decide) (by decide)
    (by decide) (by decide)

/-- A contributed row segment always has the block's property count. -/
theorem segmentP_length (b : RawBlock) (s : List Int) (ci : Nat) :
    (segmentP b s ci).length = b.properties.entries.length := by
  cases h : b.samples.entries.indexOf? s <;> simp [segmentP, h]

/-- For a block without the merged sample, the contributed segment is all
zeros. -/
theorem segmentP_of_not_mem (b : RawBlock) (s : List Int) (ci : Nat)
    (h : s ∉ b.samples.entries) :
    segmentP b s ci = List.replicate b.properties.entries.length 0 := by
  have hnone : b.samples.entries.indexOf? s = none := by
    rw [List.indexOf?_eq_none_iff]
    intro x hx hxa
    exact h (eq_of_beq hxa ▸ hx)
  rw [segmentP, hnone]

/-- Reading the concatenation of per-element segments at an offset into the
`j`-th segment reads that segment. -/
theorem flatMap_getD_segment {γ : Type} (f : γ → List Int) (len : γ → Nat) :
    ∀ (l : List γ), (∀ x ∈ l, (f x).length = len x) →
      ∀ (j : Nat) (hj : j < l.length) (pi : Nat),
        pi < len (l.get ⟨j, hj⟩) →
        (l.flatMap f).getD (((l.take j).map len).sum + pi) 0 =
          (f (l.get ⟨j, hj⟩)).getD pi 0 := by
  intro l
  induction l with
  | nil => intro _ j hj; exact absurd hj (Nat.not_lt_zero j)
  | cons x xs ih =>
    intro hl j hj pi hpi
    have hx : (f x).length = len x := hl x (List.mem_cons_self _ _)
    cases j with
    | zero =>
      simp only [List.take_zero, List.map_nil, List.sum_nil, Nat.zero_add]
      rw [List.flatMap_cons, List.getD_append _ _ _ _ (by rw [hx]; exact hpi)]
      rfl
    | succ n =>
      rw [List.flatMap_cons, List.take_succ_cons, List.map_cons, List.sum_cons,
        show len x + ((xs.take n).map len).sum + pi =
          (f x).length + (((xs.take n).map len).sum + pi) from by rw [hx]; ring,
        List.getD_append_right _ _ _ _ (Nat.le_add_right _ _),
        Nat.add_sub_cancel_left]
      exact ih (fun z hz => hl z (List.mem_cons_of_mem _ hz)) n
        (Nat.lt_of_succ_lt_succ hj) pi hpi

/-- Properties of a successfully merged keys-to-properties group: the merged
samples are the lexicographically sorted duplicate-free union of the
contributing blocks' samples, and every cell of a (sample, property) pair
absent from the property's originating block is zero. -/
theorem mergeGroupP_ok_props {kn vars : List String}
    {contrib : List (List Int × Block)} {b' : Block}
    (h : mergeGroupP kn vars contrib = .ok b') :
    List.Sorted LexLe b'.values.samples.entries ∧
    b'.values.samples.entries.Nodup ∧
    (∀ e, e ∈ b'.values.samples.entries ↔
      ∃ p ∈ contrib, e ∈ p.2.values.samples.entries) ∧
    (∀ j (hj : j < contrib.length) si
      (hsi : si < b'.values.samples.entries.length),
      b'.values.samples.entries.get ⟨si, hsi⟩ ∉
        (contrib.get ⟨j, hj⟩).2.values.samples.entries →
      ∀ ci, ci < prodCounts b'.values.components →
      ∀ pi, pi < (contrib.get ⟨j, hj⟩).2.values.properties.entries.length →
        cellD b'.values si ci
          (((contrib.take j).map
            (fun p => p.2.values.properties.entries.length)).sum + pi) = 0) := by
  cases contrib with
  | nil => rw [mergeGroupP] at h; cases h
  | cons p0 rest =>
    rw [mergeGroupP] at h
    split at h
    · split at h
      · cases h
        refine ⟨List.sorted_insertionSort LexLe _,
          (List.perm_insertionSort LexLe _).nodup_iff.mpr (dedupFirst_nodup _),
          ?_, ?_⟩
        · intro e
          rw [show (Block.values ⟨⟨⟨p0.2.values.samples.names,
                List.insertionSort LexLe (dedupFirst ((p0 :: rest).flatMap
                  (fun p => p.2.values.samples.entries)))⟩,
              p0.2.values.components, _, _⟩, []⟩).samples.entries =
            List.insertionSort LexLe (dedupFirst ((p0 :: rest).flatMap
              (fun p => p.2.values.samples.entries))) from rfl]
          rw [(List.perm_insertionSort LexLe _).mem_iff, dedupFirst_mem,
            List.mem_flatMap]
        · dsimp only
          intro j hj si hsi hnot ci hci pi hpi
          dsimp only [cellD]
          have h1 : (List.map (fun s =>
              List.map (fun ci => (p0 :: rest).flatMap
                (fun p => segmentP p.2.values s ci))
                (List.range (prodCounts p0.2.values.components)))
              (List.insertionSort LexLe (dedupFirst ((p0 :: rest).flatMap
                (fun p => p.2.values.samples.entries))))).getD si [] =
              List.map (fun ci => (p0 :: rest).flatMap
                (fun p => segmentP p.2.values
                  ((List.insertionSort LexLe (dedupFirst ((p0 :: rest).flatMap
                    (fun p => p.2.values.samples.entries)))).get ⟨si, hsi⟩) ci))
                (List.range (prodCounts p0.2.values.components)) := by
            rw [List.getD_eq_getElem _ _ (by rw [List.length_map]; exact hsi),
              List.getElem_map]
            simp only [List.get_eq_getElem]
          have h2 : (List.map (fun ci => (p0 :: rest).flatMap
              (fun p => segmentP p.2.values
                ((List.insertionSort LexLe (dedupFirst ((p0 :: rest).flatMap
                  (fun p => p.2.values.samples.entries)))).get ⟨si, hsi⟩) ci))
              (List.range (prodCounts p0.2.values.components))).getD ci [] =
              (p0 :: rest).flatMap (fun p => segmentP p.2.values
                ((List.insertionSort LexLe (dedupFirst ((p0 :: rest).flatMap
                  (fun p => p.2.values.samples.entries)))).get ⟨si, hsi⟩) ci) := by
            rw [List.getD_eq_getElem _ _
                (by rw [List.length_map, List.length_range]; exact hci),
              List.getElem_map, List.getElem_range]
          rw [h1, h2]
          have key := flatMap_getD_segment
            (fun p => segmentP p.2.values
              ((List.insertionSort LexLe (dedupFirst ((p0 :: rest).flatMap
                (fun p => p.2.values.samples.entries)))).get ⟨si, hsi⟩) ci)
            (fun p => p.2.values.properties.entries.length)
            (p0 :: rest)
            (fun x _ => segmentP_length x.2.values _ ci)
            j hj pi hpi
          rw [key]
          dsimp only
          rw [segmentP_of_not_mem _ _ _ hnot,
            List.getD_eq_getElem _ _ (by rw [List.length_replicate]; exact hpi),
            List.getElem_replicate]
      · cases h
    · cases h

/-- C5: after a successful keys-to-properties, the result has one block per
residual key; each is the merge of its group, its sample Labels are sorted
lexicographically (first variable major), duplicate-free and contain
exactly the sample entries of the contributing blocks, and every
(sample, property) cell whose sample is absent from the property's
originating block is zero. -/
theorem claim_C5_keys_to_properties (t : TensorMap) (vars : List String)
    (t' : TensorMap) (hok : keysToProperties t vars = .ok t') :
    t'.blocks.length = (residualList t vars).length ∧
    ∀ i (hi : i < t'.blocks.length) (hir : i < (residualList t vars).length),
      mergeGroupP t.keys.names vars
        (contribPairs t vars ((residualList t vars).get ⟨i, hir⟩)) =
        .ok (t'.blocks.get ⟨i, hi⟩) ∧
      List.Sorted LexLe (t'.blocks.get ⟨i, hi⟩).values.samples.entries ∧
      (t'.blocks.get ⟨i, hi⟩).values.samples.entries.Nodup ∧
      (∀ e, e ∈ (t'.blocks.get ⟨i, hi⟩).values.samples.entries ↔
        ∃ p ∈ contribPairs t vars ((residualList t vars).get ⟨i, hir⟩),
          e ∈ p.2.values.samples.entries) ∧
      (∀ j (hj : j < (contribPairs t vars
          ((residualList t vars).get ⟨i, hir⟩)).length)
        si (hsi : si < (t'.blocks.get ⟨i, hi⟩).values.samples.entries.length),
        (t'.blocks.get ⟨i, hi⟩).values.samples.entries.get ⟨si, hsi⟩ ∉
          ((contribPairs t vars ((residualList t vars).get ⟨i, hir⟩)).get
            ⟨j, hj⟩).2.values.samples.entries →
        ∀ ci, ci < prodCounts (t'.blocks.get ⟨i, hi⟩).values.components →
        ∀ pi, pi < ((contribPairs t vars
            ((residualList t vars).get ⟨i, hir⟩)).get
              ⟨j, hj⟩).2.values.properties.entries.length →
          cellD (t'.blocks.get ⟨i, hi⟩).values si ci
            ((((contribPairs t vars
              ((residualList t vars).get ⟨i, hir⟩)).take j).map
              (fun p => p.2.values.properties.entries.length)).sum + pi) = 0) := by
  rw [keysToProperties] at hok
  by_cases hv : kpValid t vars
  · rw [if_pos hv] at hok
    cases hm : mapExcept
        (fun r => mergeGroupP t.keys.names vars (contribPairs t vars r))
        (residualList t vars) with
    | error e => rw [hm] at hok; cases hok
    | ok blocks =>
      rw [hm] at hok
      cases hok
      obtain ⟨hlen, hp⟩ := mapExcept_ok hm
      refine ⟨hlen, ?_⟩
      intro i hi hir
      have hmerge := hp i hir hi
      obtain ⟨hs, hnd, hmem, hzero⟩ := mergeGroupP_ok_props hmerge
      exact ⟨hmerge, hs, hnd, hmem, hzero⟩
  · rw [if_neg hv] at hok; cases hok

/-- C5 witness: in the merged block of `demoMap5`, the cell of sample `[1]`
in the property column that originated from the first block (which lacks
that sample) is zero. -/
theorem claim_C5_witness :
    cellD (demoMap5res.blocks.get ⟨0, by decide⟩).values 1 0 0 = 0 :=
  ((claim_C5_keys_to_properties demoMap5 ["a"] demoMap5res (by decide)).2
    0 (by decide) (by decide)).2.2.2.2 0 (by decide) 1 (by decide) (by decide)
    0 (by decide) 0 (by decide)

/-- Reading a count token succeeds exactly on a leading count token. -/
theorem readNat_inv {b : Buf} {n : Nat} {r : Buf} (h : readNat b = .ok (n, r)) :
    b = Tok.nat n :: r := by
  cases b with
  | nil => cases h
  | cons t rest =>
    cases t with
    | nat m => cases h; rfl
    | int i => cases h
    | str s => cases h

/-- Reading a value token succeeds exactly on a leading value token. -/
theorem readInt_inv {b : Buf} {i : Int} {r : Buf} (h : readInt b = .ok (i, r)) :
    b = Tok.int i :: r := by
  cases b with
  | nil => cases h
  | cons t rest =>
    cases t with
    | nat m => cases h
    | int j => cases h; rfl
    | str s => cases h

/-- Reading a name token succeeds exactly on a leading name token. -/
theorem readStr_inv {b : Buf} {s : String} {r : Buf} (h : readStr b = .ok (s, r)) :
    b = Tok.str s :: r := by
  cases b with
  | nil => cases h
  | cons t rest =>
    cases t with
    | nat m => cases h
    | int j => cases h
    | str u => cases h; rfl

/-- A flat expansion of singletons is a map. -/
theorem flatMap_single {γ δ : Type} (l : List γ) (f : γ → δ) :
    l.flatMap (fun x => [f x]) = l.map f := by
  induction l with
  | nil => rfl
  | cons x xs ih => simp [List.flatMap_cons, ih]

/-- A counted parse consumes exactly the concatenated encodings of what it
returned, and returns as many elements as requested. -/
theorem readCount_inv {α : Type} {p : Buf → Except Err (α × Buf)} (enc : α → Buf)
    (hp : ∀ b x r, p b = .ok (x, r) → b = enc x ++ r) :
    ∀ {n : Nat} {b : Buf} {xs : List α} {r : Buf},
      readCount p n b = .ok (xs, r) →
      b = xs.flatMap enc ++ r ∧ xs.length = n := by
  intro n
  induction n with
  | zero =>
    intro b xs r h
    rw [readCount] at h
    cases h
    exact ⟨rfl, rfl⟩
  | succ m ih =>
    intro b xs r h
    cases hx : p b with
    | error e => rw [readCount, hx] at h; cases h
    | ok xb =>
      obtain ⟨x, b1⟩ := xb
      cases hxs : readCount p m b1 with
      | error e => simp only [readCount, hx, hxs] at h; cases h
      | ok xsb =>
        obtain ⟨xs', b2⟩ := xsb
        simp only [readCount, hx, hxs, Except.ok.injEq, Prod.mk.injEq] at h
        obtain ⟨h5, h6⟩ := h
        subst h5
        subst h6
        obtain ⟨hb1, hlen⟩ := ih hxs
        refine ⟨?_, by simp [hlen]⟩
        rw [hp b x b1 hx, hb1, List.flatMap_cons, List.append_assoc]

/-- A counted row of value tokens parses back to its encoding. -/
theorem readRow_inv {n : Nat} {b : Buf} {row : List Int} {r : Buf}
    (h : readCount readInt n b = .ok (row, r)) :
    b = row.map Tok.int ++ r := by
  have hr := readCount_inv (fun i => [Tok.int i])
    (fun _ _ _ hh => readInt_inv hh) h
  rw [hr.1, flatMap_single]

/-- A counted matrix of value tokens parses back to its encoding. -/
theorem readMatrix_inv {np nc : Nat} {b : Buf} {m : List (List Int)} {r : Buf}
    (h : readCount (readCount readInt np) nc b = .ok (m, r)) :
    b = m.flatMap (fun row => row.map Tok.int) ++ r :=
  (readCount_inv (fun row => row.map Tok.int)
    (fun _ _ _ hh => readRow_inv hh) h).1

/-- A counted payload of value tokens parses back to its encoding. -/
theorem readData_inv {np ce ns : Nat} {b : Buf} {d : List (List (List Int))}
    {r : Buf}
    (h : readCount (readCount (readCount readInt np) ce) ns b = .ok (d, r)) :
    b = encodeData d ++ r := by
  have hr := (readCount_inv (fun m => m.flatMap (fun row => row.map Tok.int))
    (fun _ _ _ hh => readMatrix_inv hh) h).1
  rw [hr, encodeData]

/-- A parsed Labels entry consumes exactly its canonical encoding. -/
theorem readLabels_inv {b : Buf} {l : Labels} {r : Buf}
    (h : readLabels b = .ok (l, r)) : b = encodeLabels l ++ r := by
  cases h1 : readNat b with
  | error e => rw [readLabels, h1] at h; cases h
  | ok p1 =>
    obtain ⟨nn, b1⟩ := p1
    cases h2 : readCount readStr nn b1 with
    | error e => simp only [readLabels, h1, h2] at h; cases h
    | ok p2 =>
      obtain ⟨names, b2⟩ := p2
      cases h3 : readNat b2 with
      | error e => simp only [readLabels, h1, h2, h3] at h; cases h
      | ok p3 =>
        obtain ⟨ne, b3⟩ := p3
        cases h4 : readCount (readCount readInt nn) ne b3 with
        | error e => simp only [readLabels, h1, h2, h3, h4] at h; cases h
        | ok p4 =>
          obtain ⟨entries, b4⟩ := p4
          simp only [readLabels, h1, h2, h3, h4, Except.ok.injEq,
            Prod.mk.injEq] at h
          obtain ⟨hl, hr⟩ := h
          subst hl
          subst hr
          obtain ⟨hb1, hnames⟩ := readCount_inv (fun s => [Tok.str s])
            (fun _ _ _ hh => readStr_inv hh) h2
          obtain ⟨hb3, hentries⟩ := readCount_inv (fun e => e.map Tok.int)
            (fun _ _ _ hh => readRow_inv hh) h4
          rw [readNat_inv h1, hb1, flatMap_single, readNat_inv h3, hb3]
          simp [encodeLabels, hnames, hentries, List.append_assoc]

/-- A parsed block-values entry consumes exactly its canonical encoding. -/
theorem readRaw_inv {b : Buf} {rb : RawBlock} {r : Buf}
    (h : readRaw b = .ok (rb, r)) : b = encodeRaw rb ++ r := by
  cases h1 : readLabels b with
  | error e => rw [readRaw, h1] at h; cases h
  | ok p1 =>
    obtain ⟨samples, b1⟩ := p1
    cases h2 : readNat b1 with
    | error e => simp only [readRaw, h1, h2] at h; cases h
    | ok p2 =>
      obtain ⟨nc, b2⟩ := p2
      cases h3 : readCount readLabels nc b2 with
      | error e => simp only [readRaw, h1, h2, h3] at h; cases h
      | ok p3 =>
        obtain ⟨comps, b3⟩ := p3
        cases h4 : readLabels b3 with
        | error e => simp only [readRaw, h1, h2, h3, h4] at h; cases h
        | ok p4 =>
          obtain ⟨props, b4⟩ := p4
          cases h5 : readCount
              (readCount (readCount readInt props.entries.length)
                (prodCounts comps)) samples.entries.length b4 with
          | error e => simp only [readRaw, h1, h2, h3, h4, h5] at h; cases h
          | ok p5 =>
            obtain ⟨d, b5⟩ := p5
            simp only [readRaw, h1, h2, h3, h4, h5, Except.ok.injEq,
              Prod.mk.injEq] at h
            obtain ⟨hl, hr⟩ := h
            subst hl
            subst hr
            obtain ⟨hb2, hcomps⟩ := readCount_inv encodeLabels
              (fun _ _ _ hh => readLabels_inv hh) h3
            rw [readLabels_inv h1, readNat_inv h2, hb2, readLabels_inv h4,
              readData_inv h5]
            simp [encodeRaw, hcomps, List.append_assoc]

/-- A parsed gradient sub-entry consumes exactly its canonical encoding. -/
theorem readGrad_inv {b : Buf} {g : String × RawBlock} {r : Buf}
    (h : readGrad b = .ok (g, r)) : b = (Tok.str g.1 :: encodeRaw g.2) ++ r := by
  cases h1 : readStr b with
  | error e => rw [readGrad, h1] at h; cases h
  | ok p1 =>
    obtain ⟨name, b1⟩ := p1
    cases h2 : readRaw b1 with
    | error e => simp only [readGrad, h1, h2] at h; cases h
    | ok p2 =>
      obtain ⟨rb, b2⟩ := p2
      simp only [readGrad, h1, h2, Except.ok.injEq, Prod.mk.injEq] at h
      obtain ⟨hl, hr⟩ := h
      subst hl
      subst hr
      rw [readStr_inv h1, readRaw_inv h2]
      simp

/-- A parsed block entry consumes exactly its canonical encoding. -/
theorem readBlock_inv {b : Buf} {blk : Block} {r : Buf}
    (h : readBlock b = .ok (blk, r)) : b = encodeBlock blk ++ r := by
  cases h1 : readRaw b with
  | error e => rw [readBlock, h1] at h; cases h
  | ok p1 =>
    obtain ⟨v, b1⟩ := p1
    cases h2 : readNat b1 with
    | error e => simp only [readBlock, h1, h2] at h; cases h
    | ok p2 =>
      obtain ⟨ng, b2⟩ := p2
      cases h3 : readCount readGrad ng b2 with
      | error e => simp only [readBlock, h1, h2, h3] at h; cases h
      | ok p3 =>
        obtain ⟨gs, b3⟩ := p3
        simp only [readBlock, h1, h2, h3, Except.ok.injEq, Prod.mk.injEq] at h
        obtain ⟨hl, hr⟩ := h
        subst hl
        subst hr
        obtain ⟨hb2, hgs⟩ := readCount_inv
          (fun g => Tok.str g.1 :: encodeRaw g.2)
          (fun _ _ _ hh => readGrad_inv hh) h3
        rw [readRaw_inv h1, readNat_inv h2, hb2]
        simp [encodeBlock, hgs, List.append_assoc]

/-- C1: loading a map from any buffer the codec accepts and saving it again
reproduces the buffer exactly. -/
theorem claim_C1_roundtrip (buf : Buf) (t : TensorMap)
    (hload : load buf = .ok t) : save t = buf := by
  cases h1 : readLabels buf with
  | error e => rw [load, h1] at hload; cases hload
  | ok p1 =>
    obtain ⟨keys, b1⟩ := p1
    cases h2 : readCount readBlock keys.entries.length b1 with
    | error e => simp only [load, h1, h2] at hload; cases hload
    | ok p2 =>
      obtain ⟨blocks, b2⟩ := p2
      cases b2 with
      | cons tk rest => simp only [load, h1, h2] at hload; cases hload
      | nil =>
        simp only [load, h1, h2] at hload
        by_cases hwf : TensorMap.wf ⟨keys, blocks⟩
        · rw [if_pos hwf] at hload
          cases hload
          obtain ⟨hb1, _⟩ := readCount_inv encodeBlock
            (fun _ _ _ hh => readBlock_inv hh) h2
          rw [save, readLabels_inv h1, hb1]
          simp
        · rw [if_neg hwf] at hload
          cases hload

/-- C1 witness: the concrete buffer round-trips byte-for-byte. -/
theorem claim_C1_witness : save demoMap = demoBuf :=
  claim_C1_roundtrip demoBuf demoMap (by decide)
